import Mathlib

/-
Verification of the arkiv-katalog application core against its specification.

The Rust sources are shallowly embedded:
* `BTreeMap` values are modelled as association lists, read through `lookupA`;
  reasoning about a map goes through its key-to-value graph, never through the
  physical order of the list.
* `window::Id`, `pane_grid::Pane` and thumbnail handles are opaque identifiers,
  modelled as `Nat`.
* `Arc<Path>` keys and theme names are modelled as `String`.
* `f32` scroll state is modelled as `ℚ` (the specification's accumulator
  contract is stated in exact arithmetic).
* `iced::Task` values returned by `State::update` are modelled by the `Out`
  type which records the effect the task would perform (exit, directory scan,
  window open or close requests) rather than the runtime machinery.
* The configuration file is modelled as `Option ConfigFile`: absent, malformed,
  or a parsed key table (`Doc`) with optional fields, matching
  `#[serde(default)]` field-level defaulting.
-/

namespace ArkivKatalog

/-- Displayed item, from `pane.rs`: `Item { name: String, cover: Option<Handle> }`.
The image handle is opaque and modelled as `Nat`. -/
structure Item where
  name : String
  cover : Option Nat
  deriving DecidableEq

/-- A single main-window pane, from `pane.rs`: `DirView::Empty` or
`DirView::Dir { items: BTreeMap<Arc<Path>, Item> }` (map as association list). -/
inductive DirView where
  | Empty
  | Dir (items : List (String × Item))
  deriving DecidableEq

/-- Path to a `DirView`, from `lib.rs`: `ViewPath { window_id, pane }`. -/
structure ViewPath where
  window_id : Nat
  pane : Nat
  deriving DecidableEq

/-- Path to an item, from `lib.rs`: `ItemPath { view_path, path }`. -/
structure ItemPath where
  view_path : ViewPath
  path : String
  deriving DecidableEq

/-- Application settings, from `lib.rs`. The theme is kept by its stable name,
matching the name-based identity of `theme_arg.rs` (`PartialEq` by `name()`),
and the `u16` widths are kept as `Nat` (their range enters through the decoder). -/
structure Settings where
  theme : String
  card_width : Nat
  max_card_text_width : Nat
  deriving DecidableEq

/-- `impl Default for Settings`: theme `Dark` (default of `theme_arg.rs`),
`card_width: 150`, `max_card_text_width: 12`. -/
def defaultSettings : Settings :=
  { theme := "Dark", card_width := 150, max_card_text_width := 12 }

/-- Window kinds, from `window_state.rs`: `Main { panes }` or `Settings`.
The pane grid is modelled by its leaf map from pane id to `DirView`. -/
inductive Window where
  | Main (panes : List (Nat × DirView))
  | Settings
  deriving DecidableEq

/-- Keyboard events at the granularity `State::update` distinguishes:
`F2` released with no modifiers, or anything else. -/
inductive KeyEv where
  | f2ReleasedNoMods
  | other
  deriving DecidableEq

/-- Application message, from `lib.rs` (`enum Message`); the source's spelling
`ReloadSettigns` is kept. Scroll deltas carry the vertical pixel amount. -/
inductive Message where
  | AddDirWindow (id : Nat) (path : String)
  | AddEmptyWindow (id : Nat)
  | AddSettingsWindow (id : Nat)
  | RemoveWindow (id : Nat)
  | SetTheme (theme : String)
  | ThemeScroll (delta : ℚ)
  | KeyEvent (ev : KeyEv)
  | AddItem (item_path : ItemPath) (item : Item)
  | SaveSettings
  | ReloadSettigns
  deriving DecidableEq

/-- A parsed configuration document for `Settings`: each field optional,
mirroring `#[serde(default)]` per-field defaulting of `config.toml`. -/
structure Doc where
  theme : Option String
  card_width : Option Nat
  max_card_text_width : Option Nat
  deriving DecidableEq

/-- Content of the profile-scoped `config.toml`: a well-formed document or
unparseable text. -/
inductive ConfigFile where
  | wellFormed (d : Doc)
  | malformed
  deriving DecidableEq

/-- The configuration file location: `Option.none` models a missing file
(`find_config_file` returning `None`). -/
abbrev FS := Option ConfigFile

/-- Application state, from `lib.rs` (`struct State`); fields not touched by
the verified handlers (cli, xdg base directories) are carried by `FS` or
omitted. -/
structure State where
  windows : List (Nat × Window)
  settings : Settings
  theme_scroll : ℚ
  deriving DecidableEq

/-- Effect of the `iced::Task` returned by one `State::update` call. -/
inductive Out where
  | exit
  | none
  | dirScan (path : String) (namePrefix : Option String) (vp : ViewPath)
  | closeWindows (ids : List Nat)
  | openSettingsReq
  deriving DecidableEq

/-- Whether an update result signals application termination (`iced::exit`). -/
def Out.isExit : Out → Bool
  | Out.exit => true
  | _ => false

/-- Association-list lookup, modelling `BTreeMap::get`. -/
def lookupA {κ α : Type} [DecidableEq κ] (k : κ) : List (κ × α) → Option α
  | [] => Option.none
  | (k2, v) :: rest => if k2 = k then some v else lookupA k rest

/-- Whether a key is present, modelling `BTreeMap::contains_key`. -/
def hasKey {κ α : Type} [DecidableEq κ] (k : κ) : List (κ × α) → Bool
  | [] => false
  | p :: rest => decide (p.1 = k) || hasKey k rest

/-- Association-list insert, modelling `BTreeMap::insert`: an existing key has
its value replaced, a new key is added. -/
def insertA {κ α : Type} [DecidableEq κ] (k : κ) (v : α) :
    List (κ × α) → List (κ × α)
  | [] => [(k, v)]
  | p :: rest => if p.1 = k then (k, v) :: rest else p :: insertA k v rest

/-- Association-list removal, modelling `BTreeMap::remove`. -/
def removeA {κ α : Type} [DecidableEq κ] (k : κ) :
    List (κ × α) → List (κ × α)
  | [] => []
  | p :: rest => if p.1 = k then rest else p :: removeA k rest

/-- Association-list in-place update of the value at a key, modelling a write
through a `get_mut` borrow: absent keys leave the list unchanged. -/
def setA {κ α : Type} [DecidableEq κ] (k : κ) (f : α → α) :
    List (κ × α) → List (κ × α)
  | [] => []
  | p :: rest => if p.1 = k then (p.1, f p.2) :: rest else p :: setA k f rest

/-- The map-uniqueness invariant of `BTreeMap`: keys occur at most once. -/
def keysNodup {κ α : Type} (l : List (κ × α)) : Prop :=
  (l.map Prod.fst).Nodup

/-- ASCII lowercasing of one character, as in Rust's `to_ascii_lowercase`. -/
def asciiLower (c : Char) : Char :=
  if 65 ≤ c.toNat ∧ c.toNat ≤ 90 then Char.ofNat (c.toNat + 32) else c

/-- Rust `str::eq_ignore_ascii_case`. -/
def eqIgnoreAsciiCase (a b : String) : Bool :=
  a.data.map asciiLower == b.data.map asciiLower

/-- The names of the external iced `Theme::ALL` list, in order. The theme set
is an external collaborator (spec §1, §4.4: a fixed, externally supplied
ordered set of named themes); theorems about the cycle are proved for an
arbitrary duplicate-free list and this concrete list is used where the
handlers need one. -/
def themeNames : List String :=
  ["Light", "Dark", "Dracula", "Nord", "Solarized Light", "Solarized Dark",
   "Gruvbox Light", "Gruvbox Dark", "Catppuccin Latte", "Catppuccin Frappé",
   "Catppuccin Macchiato", "Catppuccin Mocha", "Tokyo Night",
   "Tokyo Night Storm", "Tokyo Night Light", "Kanagawa Wave",
   "Kanagawa Dragon", "Kanagawa Lotus", "Moonfly", "Nightfly", "Oxocarbon",
   "Ferra"]

/-- `theme_arg.rs` `FromStr` (also serde `try_from = "String"`): the first
theme of the list whose name matches ignoring ASCII case, else failure. -/
def themeFromStr (l : List String) (s : String) : Option String :=
  l.find? fun name => eqIgnoreAsciiCase name s

/-- The cyclic search of `theme_arg.rs`:
`l.iter().cycle().skip_while(|t| t != &a)` scanned one element at a time,
returning the position where the skipping stops. `fuel` bounds the number of
iterator steps taken; the Rust iterator corresponds to unlimited fuel, so a
result of `Option.none` at every fuel models an infinite loop. -/
def findFrom (l : List String) (a : String) : Nat → Nat → Option Nat
  | _, 0 => Option.none
  | i, fuel + 1 =>
    match l[i % l.length]? with
    | Option.none => Option.none
    | some x => if x = a then some i else findFrom l a (i + 1) fuel

/-- `ThemeArg::next_cyclic` with an explicit step bound: after the skipping
stops at position `i`, `.nth(1)` yields the cyclically next element. -/
def nextCyclicSearch (l : List String) (a : String) (fuel : Nat) : Option String :=
  (findFrom l a 0 fuel).bind fun i => l[(i + 1) % l.length]?

/-- `ThemeArg::prev_cyclic` with an explicit step bound: the same search over
the reversed list (`.iter().rev().cycle()`). -/
def prevCyclicSearch (l : List String) (a : String) (fuel : Nat) : Option String :=
  (findFrom l.reverse a 0 fuel).bind fun j => l.reverse[(j + 1) % l.reverse.length]?

/-- `ThemeArg::next_cyclic` (`theme_arg.rs`): for a theme present in the list
the search stops within `l.length` steps, so that fuel is the faithful total
version; `Option.none` marks the search never yielding. -/
def next_cyclic (l : List String) (a : String) : Option String :=
  nextCyclicSearch l a l.length

/-- `ThemeArg::prev_cyclic` (`theme_arg.rs`). -/
def prev_cyclic (l : List String) (a : String) : Option String :=
  prevCyclicSearch l a l.length

/-- Modelled from the spec: `katalog_lib::PartialVariants::partial_cycle_next`
is not under `src/`; spec §4.4 specifies the wrap-around successor by stable
name in the fixed theme list. Totalised with the input as fallback. -/
def nextTot (l : List String) (a : String) : String :=
  (next_cyclic l a).getD a

/-- Modelled from the spec: `katalog_lib::PartialVariants::partial_cycle_prev`
is not under `src/`; spec §4.4 specifies the wrap-around predecessor by stable
name in the fixed theme list. Totalised with the input as fallback. -/
def prevTot (l : List String) (a : String) : String :=
  (prev_cyclic l a).getD a

/-- Result of one discrete-scroll step, named as used in `lib.rs`
(`discrete_scroll::Direction::{Forwards, Backwards, Stationary}`). -/
inductive Direction where
  | Forwards
  | Backwards
  | Stationary
  deriving DecidableEq

/-- Modelled from the spec: `katalog_lib::discrete_scroll` is not under
`src/`; spec §4.5 defines the step in exact arithmetic:
`total := residual + delta`; `steps := floor(total / step_size)`;
the new residual is the non-negative Euclidean remainder
`total - step_size * steps`; the result is `Forwards` for positive `steps`,
`Backwards` for negative, `Stationary` for zero. -/
def discrete_scroll (step_size residual delta : ℚ) : Direction × ℚ :=
  let total := residual + delta
  let steps : ℤ := ⌊total / step_size⌋
  (if 0 < steps then Direction.Forwards
   else if steps < 0 then Direction.Backwards
   else Direction.Stationary,
   total - step_size * (steps : ℚ))

/-- Modelled from the spec: the pixel threshold `katalog_lib` uses for one
discrete step; spec §8 works through its examples with step size 50. -/
def scrollStepSize : ℚ := 50

/-- `shorten_text` from `lib.rs`, at grapheme-cluster granularity: the text is
a list of grapheme clusters. `inner` takes the cluster at index
`max_len.saturating_sub(3)` (Rust `nth`), then skips three more clusters and
takes a fourth (present exactly when the text has more than `max_len + 1`
clusters), slices the text at the first cluster's byte offset (the first
`max_len - 3` clusters) and appends `"..."` (three `.` clusters); when either
`nth` runs dry, the text is returned unchanged. -/
def shorten_text (text : List String) (max_len : Nat) : List String :=
  let inner : Option (List String) :=
    match text[max_len - 3]? with
    | Option.none => Option.none
    | some _ =>
      match text[max_len - 3 + 4]? with
      | Option.none => Option.none
      | some _ => some (text.take (max_len - 3) ++ [".", ".", "."])
  inner.getD text

/-- One entry read from a directory: its file name and its full path. -/
structure DirEntry where
  file_name : String
  path : String
  deriving DecidableEq

/-- `State::open_dir` from `lib.rs`, over the outcome of the directory read:
the whole `read_dir` may fail (`Except.error`), and each entry may fail
individually. On read failure the error is logged and the task produces no
messages (`and_then` never runs); failing entries are dropped by the
`filter_map`; each remaining entry becomes one `AddItem` message whose item
name is the optional prefix (default empty) followed by the entry file name,
with no cover. -/
def open_dir (dir_result : Except String (List (Except String DirEntry)))
    (namePrefix : Option String) (view_path : ViewPath) : List Message :=
  match dir_result with
  | Except.error _ => []
  | Except.ok entries =>
    (entries.filterMap Except.toOption).map fun entry =>
      Message.AddItem { view_path := view_path, path := entry.path }
        { name := (namePrefix.getD "") ++ entry.file_name, cover := Option.none }

/-- `State::get_dir_view_mut` from `lib.rs`, as a read: the window must exist
and be `Main`, and the pane must exist in its grid. -/
def getDirView (s : State) (vp : ViewPath) : Option DirView :=
  match lookupA vp.window_id s.windows with
  | some (Window.Main panes) => lookupA vp.pane panes
  | _ => Option.none

/-- Replace the content of one pane inside one window, leaving everything else
in place (the effect of writing through `get_dir_view_mut`). -/
def setDirView (s : State) (vp : ViewPath) (dv : DirView) : State :=
  { s with
    windows := setA vp.window_id
      (fun w =>
        match w with
        | Window.Main panes => Window.Main (setA vp.pane (fun _ => dv) panes)
        | w => w)
      s.windows }

/-- The `Message::AddItem` write: an `Empty` pane becomes a singleton `Dir`,
a `Dir` pane gets the item inserted (overwriting the path if present). -/
def dirViewInsert (dv : DirView) (path : String) (item : Item) : DirView :=
  match dv with
  | DirView.Empty => DirView.Dir [(path, item)]
  | DirView.Dir items => DirView.Dir (insertA path item items)

/-- The pane grid created by `pane_grid::State::new(DirView::Empty)`:
one pane (id 0) holding the initial view. -/
def paneGridNew : List (Nat × DirView) := [(0, DirView.Empty)]

/-- Encoding of `Settings` by `SaveSettings` (`toml::to_string_pretty`):
every field written, the theme by its stable name. -/
def encodeSettings (s : Settings) : Doc :=
  { theme := some s.theme, card_width := some s.card_width,
    max_card_text_width := some s.max_card_text_width }

/-- Deserialisation of one `u16` field with `serde(default)`: an absent field
takes the default, a present value outside `u16` range fails the document. -/
def decodeField16 (v : Option Nat) (dflt : Nat) : Except Unit Nat :=
  match v with
  | Option.none => Except.ok dflt
  | some n => if n < 65536 then Except.ok n else Except.error ()

/-- Deserialisation of a parsed `config.toml` document into `Settings`
(`toml::from_str` with `#[serde(default)]`): absent fields take the defaults
of `defaultSettings`; a present theme name is resolved through the
case-insensitive name lookup and an unknown name fails the whole document.
The theme field of `lib.rs` is `katalog_lib::ThemeValueEnum`, which is not
under `src/`; its name-based serde round trip is modelled from the spec
(§3 `ThemeId`: identity by stable name) and from the in-src `theme_arg.rs`
(`try_from = "String"`, `into = "String"`). -/
def decodeDoc (d : Doc) : Except Unit Settings := do
  let theme ←
    match d.theme with
    | Option.none => Except.ok defaultSettings.theme
    | some s =>
      match themeFromStr themeNames s with
      | some t => Except.ok t
      | Option.none => Except.error ()
  let cw ← decodeField16 d.card_width defaultSettings.card_width
  let mw ← decodeField16 d.max_card_text_width defaultSettings.max_card_text_width
  Except.ok { theme := theme, card_width := cw, max_card_text_width := mw }

/-- `State::update` from `lib.rs`, one message at a time. The configuration
file travels alongside the state; the returned `Out` is the effect of the
returned `iced::Task`. -/
def update (s : State) (fs : FS) (m : Message) : State × FS × Out :=
  match m with
  | Message.AddDirWindow wid path =>
    ({ s with windows := insertA wid (Window.Main paneGridNew) s.windows }, fs,
     Out.dirScan path Option.none { window_id := wid, pane := 0 })
  | Message.AddEmptyWindow wid =>
    ({ s with windows := insertA wid (Window.Main paneGridNew) s.windows }, fs,
     Out.none)
  | Message.AddSettingsWindow wid =>
    ({ s with windows := insertA wid Window.Settings s.windows }, fs, Out.none)
  | Message.RemoveWindow wid =>
    let ws := removeA wid s.windows
    ({ s with windows := ws }, fs, if ws.isEmpty then Out.exit else Out.none)
  | Message.SetTheme t =>
    ({ s with settings := { s.settings with theme := t } }, fs, Out.none)
  | Message.ThemeScroll delta =>
    match discrete_scroll scrollStepSize s.theme_scroll delta with
    | (Direction.Forwards, r) =>
      ({ s with theme_scroll := r,
                settings := { s.settings with
                              theme := nextTot themeNames s.settings.theme } },
       fs, Out.none)
    | (Direction.Backwards, r) =>
      ({ s with theme_scroll := r,
                settings := { s.settings with
                              theme := prevTot themeNames s.settings.theme } },
       fs, Out.none)
    | (Direction.Stationary, r) =>
      ({ s with theme_scroll := r }, fs, Out.none)
  | Message.KeyEvent ev =>
    match ev with
    | KeyEv.f2ReleasedNoMods =>
      let toClose :=
        (s.windows.filter fun p =>
          match p.2 with
          | Window.Settings => true
          | _ => false).map Prod.fst
      if toClose.isEmpty then (s, fs, Out.openSettingsReq)
      else (s, fs, Out.closeWindows toClose)
    | KeyEv.other => (s, fs, Out.none)
  | Message.AddItem ip item =>
    match getDirView s ip.view_path with
    | Option.none => (s, fs, Out.none)
    | some dv => (setDirView s ip.view_path (dirViewInsert dv ip.path item), fs,
                  Out.none)
  | Message.SaveSettings =>
    (s, some (ConfigFile.wellFormed (encodeSettings s.settings)), Out.none)
  | Message.ReloadSettigns =>
    match fs with
    | Option.none => ({ s with settings := defaultSettings }, fs, Out.none)
    | some ConfigFile.malformed => (s, fs, Out.none)
    | some (ConfigFile.wellFormed d) =>
      match decodeDoc d with
      | Except.ok st => ({ s with settings := st }, fs, Out.none)
      | Except.error _ => (s, fs, Out.none)

/-- State after one update step. -/
def stepS (s : State) (fs : FS) (m : Message) : State := (update s fs m).1

/-- Configuration file after one update step. -/
def stepFS (s : State) (fs : FS) (m : Message) : FS := (update s fs m).2.1

/-- Task effect of one update step. -/
def stepOut (s : State) (fs : FS) (m : Message) : Out := (update s fs m).2.2

/-- State after replaying a list of messages. -/
def finalS : State → FS → List Message → State
  | s, _, [] => s
  | s, fs, m :: rest => finalS (stepS s fs m) (stepFS s fs m) rest

/-- Whether some step of the replay signalled `iced::exit`. -/
def exitEver : State → FS → List Message → Bool
  | _, _, [] => false
  | s, fs, m :: rest =>
    (stepOut s fs m).isExit || exitEver (stepS s fs m) (stepFS s fs m) rest

/-- The registry sizes observed along a replay, starting state included. -/
def sizeTrace : State → FS → List Message → List Nat
  | s, _, [] => [s.windows.length]
  | s, fs, m :: rest =>
    s.windows.length :: sizeTrace (stepS s fs m) (stepFS s fs m) rest

/-- Whether a size trace reaches zero strictly after having been positive:
the flag records that a positive size has already been seen. -/
def posThenZero : List Nat → Bool → Bool
  | [], _ => false
  | x :: t, b => (b && decide (x = 0)) || posThenZero t (b || decide (0 < x))

/-- Window-open events of the registry lifecycle. -/
def isOpenEvent : Message → Bool
  | Message.AddDirWindow _ _ => true
  | Message.AddEmptyWindow _ => true
  | Message.AddSettingsWindow _ => true
  | _ => false

/-- Window-close events of the registry lifecycle. -/
def isCloseEvent : Message → Bool
  | Message.RemoveWindow _ => true
  | _ => false

/-- Whether some `RemoveWindow` of the replay arrives while the registry is
already empty. -/
def closeAtEmpty : State → FS → List Message → Bool
  | _, _, [] => false
  | s, fs, m :: rest =>
    (isCloseEvent m && s.windows.isEmpty)
    || closeAtEmpty (stepS s fs m) (stepFS s fs m) rest

/-- Whether a replay consists of window-open and window-close events only. -/
def windowEventsOnly (evs : List Message) : Bool :=
  evs.all fun m => isOpenEvent m || isCloseEvent m

/-- Number of window-open events of a replay. -/
def opensCount (evs : List Message) : Nat :=
  evs.countP fun m => isOpenEvent m

/-- Number of `RemoveWindow` events whose id matches a window present when the
event is processed. -/
def matchingCloses : State → FS → List Message → Nat
  | _, _, [] => 0
  | s, fs, m :: rest =>
    (match m with
     | Message.RemoveWindow id => if hasKey id s.windows then 1 else 0
     | _ => 0)
    + matchingCloses (stepS s fs m) (stepFS s fs m) rest

/-- The spec's precondition on `WindowOpened` (§4.1: id not already present),
checked along the replay. -/
def freshOpens : State → FS → List Message → Bool
  | _, _, [] => true
  | s, fs, m :: rest =>
    (match m with
     | Message.AddDirWindow id _ => !hasKey id s.windows
     | Message.AddEmptyWindow id => !hasKey id s.windows
     | Message.AddSettingsWindow id => !hasKey id s.windows
     | _ => true)
    && freshOpens (stepS s fs m) (stepFS s fs m) rest

/-! ### Association-list lemmas -/

theorem hasKey_iff_mem {κ α : Type} [DecidableEq κ] (k : κ) (l : List (κ × α)) :
    hasKey k l = true ↔ k ∈ l.map Prod.fst := by
  induction l with
  | nil => simp [hasKey]
  | cons p rest ih =>
    simp only [hasKey, List.map_cons, List.mem_cons, Bool.or_eq_true,
      decide_eq_true_eq, ih]
    constructor
    · rintro (h | h)
      exacts [Or.inl h.symm, Or.inr h]
    · rintro (h | h)
      exacts [Or.inl h.symm, Or.inr h]

theorem lookupA_insertA_self {κ α : Type} [DecidableEq κ] (k : κ) (v : α)
    (l : List (κ × α)) : lookupA k (insertA k v l) = some v := by
  induction l with
  | nil => simp [insertA, lookupA]
  | cons p rest ih =>
    by_cases h : p.1 = k
    · simp [insertA, h, lookupA]
    · simp [insertA, h, lookupA, ih]

theorem lookupA_insertA_other {κ α : Type} [DecidableEq κ] (k q : κ) (v : α)
    (l : List (κ × α)) (hq : q ≠ k) :
    lookupA q (insertA k v l) = lookupA q l := by
  have h2 : ¬(k = q) := fun he => hq he.symm
  induction l with
  | nil => simp [insertA, lookupA, h2]
  | cons p rest ih =>
    by_cases h : p.1 = k
    · simp [insertA, h, lookupA, h2]
    · by_cases h3 : p.1 = q <;> simp [insertA, h, lookupA, h3, hq, ih]

theorem mem_fst_insertA {κ α : Type} [DecidableEq κ] (k q : κ) (v : α)
    (l : List (κ × α)) (hmem : q ∈ (insertA k v l).map Prod.fst) :
    q ∈ l.map Prod.fst ∨ q = k := by
  induction l with
  | nil => simpa [insertA] using hmem
  | cons p rest ih =>
    by_cases h : p.1 = k
    · simp only [insertA, h, if_true, List.map_cons, List.mem_cons] at hmem
      rcases hmem with h2 | h2
      · exact Or.inr h2
      · exact Or.inl (by simp [h2])
    · simp only [insertA, h, if_false, List.map_cons, List.mem_cons] at hmem
      rcases hmem with h2 | h2
      · exact Or.inl (by simp [h2])
      · rcases ih h2 with h3 | h3
        · exact Or.inl (by simp [h3])
        · exact Or.inr h3

theorem keysNodup_insertA {κ α : Type} [DecidableEq κ] (k : κ) (v : α)
    (l : List (κ × α)) (hnd : keysNodup l) : keysNodup (insertA k v l) := by
  induction l with
  | nil => simp [insertA, keysNodup]
  | cons p rest ih =>
    simp only [keysNodup, List.map_cons, List.nodup_cons] at hnd
    by_cases h : p.1 = k
    · simp only [insertA, h, if_true, keysNodup, List.map_cons, List.nodup_cons]
      exact ⟨h ▸ hnd.1, hnd.2⟩
    · simp only [insertA, h, if_false, keysNodup, List.map_cons, List.nodup_cons]
      refine ⟨fun hc => ?_, ih hnd.2⟩
      rcases mem_fst_insertA k p.1 v rest hc with h2 | h2
      · exact hnd.1 h2
      · exact h h2

theorem insertA_length_of_fresh {κ α : Type} [DecidableEq κ] (k : κ) (v : α)
    (l : List (κ × α)) (h : hasKey k l = false) :
    (insertA k v l).length = l.length + 1 := by
  induction l with
  | nil => simp [insertA]
  | cons p rest ih =>
    simp only [hasKey, Bool.or_eq_false_iff, decide_eq_false_iff_not] at h
    simp [insertA, h.1, ih h.2]

theorem insertA_length_pos {κ α : Type} [DecidableEq κ] (k : κ) (v : α)
    (l : List (κ × α)) : 0 < (insertA k v l).length := by
  cases l with
  | nil => simp [insertA]
  | cons p rest =>
    by_cases h : p.1 = k <;> simp [insertA, h]

theorem removeA_of_not_mem {κ α : Type} [DecidableEq κ] (k : κ) (l : List (κ × α))
    (h : hasKey k l = false) : removeA k l = l := by
  induction l with
  | nil => rfl
  | cons p rest ih =>
    simp only [hasKey, Bool.or_eq_false_iff, decide_eq_false_iff_not] at h
    simp [removeA, h.1, ih h.2]

theorem removeA_length_of_mem {κ α : Type} [DecidableEq κ] (k : κ) (l : List (κ × α))
    (hk : hasKey k l = true) (hnd : keysNodup l) :
    (removeA k l).length + 1 = l.length := by
  induction l with
  | nil => simp [hasKey] at hk
  | cons p rest ih =>
    simp only [keysNodup, List.map_cons, List.nodup_cons] at hnd
    by_cases h : p.1 = k
    · simp [removeA, h]
    · have hk2 : hasKey k rest = true := by
        simpa [hasKey, h] using hk
      simp only [removeA, h, if_false, List.length_cons]
      rw [← ih hk2 hnd.2]

theorem mem_fst_removeA {κ α : Type} [DecidableEq κ] (k q : κ)
    (l : List (κ × α)) (hmem : q ∈ (removeA k l).map Prod.fst) :
    q ∈ l.map Prod.fst := by
  induction l with
  | nil => simp [removeA] at hmem
  | cons p rest ih =>
    by_cases h : p.1 = k
    · simp only [removeA, h, if_true] at hmem
      simp [hmem]
    · simp only [removeA, h, if_false, List.map_cons, List.mem_cons] at hmem
      rcases hmem with h2 | h2
      · simp [h2]
      · simp [ih h2]

theorem keysNodup_removeA {κ α : Type} [DecidableEq κ] (k : κ)
    (l : List (κ × α)) (hnd : keysNodup l) : keysNodup (removeA k l) := by
  induction l with
  | nil => exact hnd
  | cons p rest ih =>
    simp only [keysNodup, List.map_cons, List.nodup_cons] at hnd
    by_cases h : p.1 = k
    · simpa [removeA, h, keysNodup] using hnd.2
    · simp only [removeA, h, if_false, keysNodup, List.map_cons, List.nodup_cons]
      exact ⟨fun hc => hnd.1 (mem_fst_removeA k p.1 rest hc), ih hnd.2⟩

theorem lookupA_setA_self {κ α : Type} [DecidableEq κ] (k : κ) (f : α → α)
    (l : List (κ × α)) (v : α) (h : lookupA k l = some v) :
    lookupA k (setA k f l) = some (f v) := by
  induction l with
  | nil => simp [lookupA] at h
  | cons p rest ih =>
    by_cases hp : p.1 = k
    · simp only [lookupA, hp, if_true, Option.some.injEq] at h
      simp [setA, hp, lookupA, h]
    · simp only [lookupA, hp, if_false] at h
      simp [setA, hp, lookupA, ih h]

theorem setA_map_fst {κ α : Type} [DecidableEq κ] (k : κ) (f : α → α)
    (l : List (κ × α)) : (setA k f l).map Prod.fst = l.map Prod.fst := by
  induction l with
  | nil => rfl
  | cons p rest ih =>
    by_cases hp : p.1 = k <;> simp [setA, hp, ih]

theorem setA_length {κ α : Type} [DecidableEq κ] (k : κ) (f : α → α)
    (l : List (κ × α)) : (setA k f l).length = l.length := by
  induction l with
  | nil => rfl
  | cons p rest ih =>
    by_cases hp : p.1 = k <;> simp [setA, hp, ih]

/-! ### C2: stale `AddItem` events are dropped without touching state -/

/-- C2: an `AddItem` (`ItemDiscovered`) message whose `ViewPath` does not
resolve to an existing `Main`-window pane leaves the state (window registry
and every `DirView`) and the configuration file unchanged and returns the
plain no-op task, never a fatal error. -/
theorem c2_stale_add_item_is_noop (s : State) (fs : FS) (vp : ViewPath)
    (p : String) (it : Item) (h : getDirView s vp = Option.none) :
    update s fs (Message.AddItem { view_path := vp, path := p } it)
      = (s, fs, Out.none) := by
  simp [update, h]

/-- Witness for C2 at a registry whose only window is a settings window. -/
theorem c2_stale_add_item_is_noop_witness :
    getDirView { windows := [(5, Window.Settings)], settings := defaultSettings,
                 theme_scroll := 0 } { window_id := 5, pane := 0 } = Option.none
    ∧ update { windows := [(5, Window.Settings)], settings := defaultSettings,
               theme_scroll := 0 } Option.none
        (Message.AddItem { view_path := { window_id := 5, pane := 0 }, path := "a/b.txt" }
          { name := "b.txt", cover := Option.none })
      = ({ windows := [(5, Window.Settings)], settings := defaultSettings,
           theme_scroll := 0 }, Option.none, Out.none) :=
  ⟨by decide, c2_stale_add_item_is_noop _ _ _ _ _ (by decide)⟩

/-! ### C3: `AddItem` to an existing pane inserts or overwrites -/

theorem getDirView_setDirView (s : State) (vp : ViewPath) (dv dv2 : DirView)
    (h : getDirView s vp = some dv) :
    getDirView (setDirView s vp dv2) vp = some dv2 := by
  unfold getDirView at h ⊢
  cases hw : lookupA vp.window_id s.windows with
  | none => rw [hw] at h; exact absurd h (by simp)
  | some w =>
    rw [hw] at h
    cases w with
    | Settings => exact absurd h (by simp)
    | Main panes =>
      have hset := lookupA_setA_self vp.window_id
        (fun w =>
          match w with
          | Window.Main panes => Window.Main (setA vp.pane (fun _ => dv2) panes)
          | w => w)
        s.windows (Window.Main panes) hw
      simp only [setDirView, hset]
      exact lookupA_setA_self vp.pane (fun _ => dv2) panes dv h

/-- C3: an `AddItem` (`ItemDiscovered`) message addressed to an existing pane
rewrites exactly that pane with `dirViewInsert`: an `Empty` pane becomes `Dir`
with the single inserted entry; a `Dir` pane gets the item stored at the path,
overwriting any previous item there, while every other path maps to the same
item as before and key uniqueness is preserved. -/
theorem c3_add_item_inserts (s : State) (fs : FS) (vp : ViewPath) (p : String)
    (it : Item) (dv : DirView) (h : getDirView s vp = some dv) :
    getDirView (stepS s fs (Message.AddItem { view_path := vp, path := p } it)) vp
      = some (dirViewInsert dv p it)
    ∧ (dv = DirView.Empty → dirViewInsert dv p it = DirView.Dir [(p, it)])
    ∧ (∀ items, dv = DirView.Dir items →
        ∃ items2, dirViewInsert dv p it = DirView.Dir items2
          ∧ lookupA p items2 = some it
          ∧ (∀ q, q ≠ p → lookupA q items2 = lookupA q items)
          ∧ (keysNodup items → keysNodup items2)) := by
  refine ⟨?_, ?_, ?_⟩
  · have hstep : stepS s fs (Message.AddItem { view_path := vp, path := p } it)
        = setDirView s vp (dirViewInsert dv p it) := by
      simp [stepS, update, h]
    rw [hstep]
    exact getDirView_setDirView s vp dv _ h
  · rintro rfl
    rfl
  · rintro items rfl
    exact ⟨insertA p it items, rfl, lookupA_insertA_self p it items,
      fun q hq => lookupA_insertA_other p q it items hq,
      keysNodup_insertA p it items⟩

/-- Witness for C3 at a one-window registry holding a `Dir` pane that already
maps the inserted path, exercising the overwrite case. -/
theorem c3_add_item_inserts_witness :
    getDirView
        { windows := [(1, Window.Main
            [(0, DirView.Dir [("a/b.txt", { name := "cover1", cover := Option.none })])])],
          settings := defaultSettings, theme_scroll := 0 }
        { window_id := 1, pane := 0 }
      = some (DirView.Dir [("a/b.txt", { name := "cover1", cover := Option.none })])
    ∧ getDirView
        (stepS
          { windows := [(1, Window.Main
              [(0, DirView.Dir [("a/b.txt", { name := "cover1", cover := Option.none })])])],
            settings := defaultSettings, theme_scroll := 0 }
          Option.none
          (Message.AddItem
            { view_path := { window_id := 1, pane := 0 }, path := "a/b.txt" }
            { name := "cover2", cover := Option.none }))
        { window_id := 1, pane := 0 }
      = some (dirViewInsert
          (DirView.Dir [("a/b.txt", { name := "cover1", cover := Option.none })])
          "a/b.txt" { name := "cover2", cover := Option.none }) :=
  ⟨by decide,
   (c3_add_item_inserts _ Option.none { window_id := 1, pane := 0 } "a/b.txt"
      { name := "cover2", cover := Option.none }
      (DirView.Dir [("a/b.txt", { name := "cover1", cover := Option.none })])
      (by decide)).1⟩

/-! ### C4: the directory scan skips failures and emits one event per entry -/

theorem length_filterMap_eq_countP {α β : Type} (f : α → Option β) (l : List α) :
    (l.filterMap f).length = l.countP fun a => (f a).isSome := by
  induction l with
  | nil => rfl
  | cons a rest ih =>
    cases h : f a with
    | none => simp [List.filterMap_cons, h, List.countP_cons, ih]
    | some b => simp [List.filterMap_cons, h, List.countP_cons, ih]

/-- C4: `open_dir` over the outcome of the directory read. A failed directory
open yields no events; a failed entry is skipped and iteration continues; each
successfully read entry yields exactly one `AddItem` event whose item name is
the prefix (defaulting to the empty string) followed by the entry file name
and whose cover is `Option.none`; in total there is one event per successful
entry. -/
theorem c4_open_dir_scan (err e : String) (namePrefix : Option String)
    (vp : ViewPath) (en : DirEntry) (entries : List (Except String DirEntry)) :
    open_dir (Except.error err) namePrefix vp = []
    ∧ open_dir (Except.ok []) namePrefix vp = []
    ∧ open_dir (Except.ok (Except.error e :: entries)) namePrefix vp
        = open_dir (Except.ok entries) namePrefix vp
    ∧ open_dir (Except.ok (Except.ok en :: entries)) namePrefix vp
        = Message.AddItem { view_path := vp, path := en.path }
            { name := (namePrefix.getD "") ++ en.file_name, cover := Option.none }
          :: open_dir (Except.ok entries) namePrefix vp
    ∧ open_dir (Except.ok entries) Option.none vp
        = open_dir (Except.ok entries) (some "") vp
    ∧ (open_dir (Except.ok entries) namePrefix vp).length
        = entries.countP fun x => (Except.toOption x).isSome := by
  refine ⟨rfl, rfl, ?_, ?_, rfl, ?_⟩
  · simp [open_dir, List.filterMap_cons, Except.toOption]
  · simp [open_dir, List.filterMap_cons, Except.toOption]
  · simp [open_dir, length_filterMap_eq_countP]

/-! ### C10: `shorten_text` truncates at the grapheme level -/

/-- C10: for `max_len ≥ 3`, `shorten_text` returns the text unchanged when it
has at most `max_len + 1` grapheme clusters, and otherwise returns its first
`max_len - 3` clusters followed by `...`, for a total of exactly `max_len`
clusters; the function is total by construction. -/
theorem c10_shorten_text_truncates (text : List String) (max_len : Nat)
    (h : 3 ≤ max_len) :
    (text.length ≤ max_len + 1 → shorten_text text max_len = text)
    ∧ (max_len + 1 < text.length →
        shorten_text text max_len = text.take (max_len - 3) ++ [".", ".", "."]
        ∧ (shorten_text text max_len).length = max_len) := by
  constructor
  · intro hle
    have h2 : text[max_len - 3 + 4]? = Option.none := by
      apply List.getElem?_eq_none
      omega
    simp only [shorten_text, h2]
    cases text[max_len - 3]? <;> simp
  · intro hgt
    have h1 : max_len - 3 < text.length := by omega
    have h2 : max_len - 3 + 4 < text.length := by omega
    have he : shorten_text text max_len = text.take (max_len - 3) ++ [".", ".", "."] := by
      simp only [shorten_text, List.getElem?_eq_getElem h1, List.getElem?_eq_getElem h2]
      rfl
    refine ⟨he, ?_⟩
    rw [he]
    simp only [List.length_append, List.length_take, List.length_cons,
      List.length_nil]
    rw [Nat.min_eq_left (Nat.le_of_lt h1)]
    omega

/-- Witness for C10: with `max_len = 4`, a six-cluster text truncates to its
first cluster plus three dots, and a five-cluster text is returned unchanged. -/
theorem c10_shorten_text_truncates_witness :
    (3 ≤ 4 ∧ 4 + 1 < ([ "a", "b", "c", "d", "e", "f" ] : List String).length)
    ∧ shorten_text ["a", "b", "c", "d", "e", "f"] 4
        = (["a", "b", "c", "d", "e", "f"] : List String).take (4 - 3) ++ [".", ".", "."]
    ∧ (shorten_text ["a", "b", "c", "d", "e", "f"] 4).length = 4 :=
  ⟨⟨by decide, by decide⟩,
   (c10_shorten_text_truncates ["a", "b", "c", "d", "e", "f"] 4 (by decide)).2 (by decide)⟩

/-! ### C5/C6: settings save/load round trip and reload error handling -/

theorem themeFromStr_self : ∀ n ∈ themeNames, themeFromStr themeNames n = some n := by
  decide

theorem decodeDoc_encodeSettings (st : Settings) (ht : st.theme ∈ themeNames)
    (hcw : st.card_width < 65536) (hmw : st.max_card_text_width < 65536) :
    decodeDoc (encodeSettings st) = Except.ok st := by
  have hth := themeFromStr_self st.theme ht
  simp [decodeDoc, encodeSettings, decodeField16, hth, hcw, hmw, Bind.bind,
    Except.bind]

/-- C5: `SaveSettings` followed by `ReloadSettigns` against the same
configuration file restores an equal `Settings` value, for every value whose
theme names a theme of the list and whose widths fit in `u16`; and
`ReloadSettigns` with no configuration file present yields the default
`Settings` (theme `Dark`, `card_width` 150, `max_card_text_width` 12) without
error. -/
theorem c5_settings_roundtrip (s : State) (fs : FS)
    (ht : s.settings.theme ∈ themeNames)
    (hcw : s.settings.card_width < 65536)
    (hmw : s.settings.max_card_text_width < 65536) :
    (stepS (stepS s fs Message.SaveSettings) (stepFS s fs Message.SaveSettings)
        Message.ReloadSettigns).settings = s.settings
    ∧ (stepS s Option.none Message.ReloadSettigns).settings = defaultSettings := by
  constructor
  · have hdec := decodeDoc_encodeSettings s.settings ht hcw hmw
    simp [stepS, stepFS, update, hdec]
  · rfl

/-- Witness for C5 at a non-default settings value. -/
theorem c5_settings_roundtrip_witness :
    ("Nord" ∈ themeNames ∧ (210 : Nat) < 65536 ∧ (9 : Nat) < 65536)
    ∧ (stepS (stepS { windows := [], settings := { theme := "Nord", card_width := 210, max_card_text_width := 9 }, theme_scroll := 0 } Option.none Message.SaveSettings) (stepFS { windows := [], settings := { theme := "Nord", card_width := 210, max_card_text_width := 9 }, theme_scroll := 0 } Option.none Message.SaveSettings) Message.ReloadSettigns).settings = { theme := "Nord", card_width := 210, max_card_text_width := 9 }
    ∧ (stepS { windows := [], settings := { theme := "Nord", card_width := 210, max_card_text_width := 9 }, theme_scroll := 0 } Option.none Message.ReloadSettigns).settings = defaultSettings :=
  ⟨⟨by decide, by decide, by decide⟩,
   (c5_settings_roundtrip { windows := [], settings := { theme := "Nord", card_width := 210, max_card_text_width := 9 }, theme_scroll := 0 } Option.none (by decide) (by decide) (by decide)).1,
   (c5_settings_roundtrip { windows := [], settings := { theme := "Nord", card_width := 210, max_card_text_width := 9 }, theme_scroll := 0 } Option.none (by decide) (by decide) (by decide)).2⟩

/-- C6: `ReloadSettigns` replaces the in-memory settings only on a successful
parse. A malformed file, or a well-formed document whose fields fail to
deserialise, reports the failure and leaves the whole state unchanged; a
successfully decoded document replaces the settings; a missing file resets
them to the defaults. -/
theorem c6_reload_keeps_state_on_failure (s : State) (d : Doc) :
    stepS s (some ConfigFile.malformed) Message.ReloadSettigns = s
    ∧ (decodeDoc d = Except.error () →
        stepS s (some (ConfigFile.wellFormed d)) Message.ReloadSettigns = s)
    ∧ (∀ st, decodeDoc d = Except.ok st →
        (stepS s (some (ConfigFile.wellFormed d)) Message.ReloadSettigns).settings = st)
    ∧ (stepS s Option.none Message.ReloadSettigns).settings = defaultSettings := by
  refine ⟨rfl, ?_, ?_, rfl⟩
  · intro hd
    simp [stepS, update, hd]
  · intro st hd
    simp [stepS, update, hd]

/-- Witness for C6 at a document whose theme name resolves to no theme
(decoding fails) and at one that decodes successfully. -/
theorem c6_reload_keeps_state_on_failure_witness :
    decodeDoc { theme := some "NoSuchTheme", card_width := Option.none, max_card_text_width := Option.none } = Except.error ()
    ∧ stepS { windows := [], settings := { theme := "Nord", card_width := 210, max_card_text_width := 9 }, theme_scroll := 0 } (some (ConfigFile.wellFormed { theme := some "NoSuchTheme", card_width := Option.none, max_card_text_width := Option.none })) Message.ReloadSettigns = { windows := [], settings := { theme := "Nord", card_width := 210, max_card_text_width := 9 }, theme_scroll := 0 }
    ∧ decodeDoc { theme := some "Dracula", card_width := some 70, max_card_text_width := Option.none } = Except.ok { theme := "Dracula", card_width := 70, max_card_text_width := 12 }
    ∧ (stepS { windows := [], settings := { theme := "Nord", card_width := 210, max_card_text_width := 9 }, theme_scroll := 0 } (some (ConfigFile.wellFormed { theme := some "Dracula", card_width := some 70, max_card_text_width := Option.none })) Message.ReloadSettigns).settings = { theme := "Dracula", card_width := 70, max_card_text_width := 12 } :=
  ⟨rfl,
   (c6_reload_keeps_state_on_failure { windows := [], settings := { theme := "Nord", card_width := 210, max_card_text_width := 9 }, theme_scroll := 0 } { theme := some "NoSuchTheme", card_width := Option.none, max_card_text_width := Option.none }).2.1 rfl,
   rfl,
   (c6_reload_keeps_state_on_failure { windows := [], settings := { theme := "Nord", card_width := 210, max_card_text_width := 9 }, theme_scroll := 0 } { theme := some "Dracula", card_width := some 70, max_card_text_width := Option.none }).2.2.1 _ rfl⟩

/-! ### C7: the discrete scroll accumulator -/

theorem direction_of_steps_iff (z : ℤ) :
    ((if 0 < z then Direction.Forwards
      else if z < 0 then Direction.Backwards
      else Direction.Stationary) = Direction.Forwards ↔ 0 < z)
    ∧ ((if 0 < z then Direction.Forwards
        else if z < 0 then Direction.Backwards
        else Direction.Stationary) = Direction.Backwards ↔ z < 0)
    ∧ ((if 0 < z then Direction.Forwards
        else if z < 0 then Direction.Backwards
        else Direction.Stationary) = Direction.Stationary ↔ z = 0) := by
  rcases lt_trichotomy z 0 with h | h | h
  · rw [if_neg (by omega), if_pos h]
    exact ⟨iff_of_false (by decide) (by omega), iff_of_true rfl h,
      iff_of_false (by decide) (by omega)⟩
  · rw [if_neg (by omega), if_neg (by omega)]
    exact ⟨iff_of_false (by decide) (by omega), iff_of_false (by decide) (by omega),
      iff_of_true rfl h⟩
  · rw [if_pos h]
    exact ⟨iff_of_true rfl h, iff_of_false (by decide) (by omega),
      iff_of_false (by decide) (by omega)⟩

/-- C7 (amended): with `total := residual + delta` and
`steps := ⌊total / step_size⌋`, one accumulator step leaves the non-negative
Euclidean remainder `total - step_size * steps ∈ [0, step_size)` as the new
residual and reports a single `Forwards`/`Backwards`/`Stationary` according to
the sign of `steps`; a zero delta from an in-range residual is a `Stationary`
no-op. With step size 50, deltas `[30, 30]` from residual 0 give `Stationary`
(residual 30) then `Forwards` (residual 10); deltas `[-10, -45]` from
residual 0 give `Backwards` with residual 40 and then `Backwards` with
residual 45 — not `Stationary` first, as the spec's example would have it. -/
theorem c7_discrete_scroll_step (step_size residual delta : ℚ)
    (hpos : 0 < step_size) :
    ((discrete_scroll step_size residual delta).2
        = (residual + delta) - step_size * (⌊(residual + delta) / step_size⌋ : ℤ)
      ∧ 0 ≤ (discrete_scroll step_size residual delta).2
      ∧ (discrete_scroll step_size residual delta).2 < step_size
      ∧ ((discrete_scroll step_size residual delta).1 = Direction.Forwards
          ↔ 0 < ⌊(residual + delta) / step_size⌋)
      ∧ ((discrete_scroll step_size residual delta).1 = Direction.Backwards
          ↔ ⌊(residual + delta) / step_size⌋ < 0)
      ∧ ((discrete_scroll step_size residual delta).1 = Direction.Stationary
          ↔ ⌊(residual + delta) / step_size⌋ = 0))
    ∧ (0 ≤ residual → residual < step_size →
        discrete_scroll step_size residual 0 = (Direction.Stationary, residual))
    ∧ discrete_scroll 50 0 30 = (Direction.Stationary, 30)
    ∧ discrete_scroll 50 30 30 = (Direction.Forwards, 10)
    ∧ discrete_scroll 50 0 (-10) = (Direction.Backwards, 40)
    ∧ discrete_scroll 50 40 (-45) = (Direction.Backwards, 45) := by
  have hne : step_size ≠ 0 := ne_of_gt hpos
  have hfr : (residual + delta) - step_size * (⌊(residual + delta) / step_size⌋ : ℤ)
      = step_size * Int.fract ((residual + delta) / step_size) := by
    rw [Int.fract]
    field_simp
  have hiff := direction_of_steps_iff ⌊(residual + delta) / step_size⌋
  refine ⟨⟨rfl, ?_, ?_, hiff.1, hiff.2.1, hiff.2.2⟩, ?_, ?_, ?_, ?_, ?_⟩
  · show (0:ℚ) ≤ (residual + delta) - step_size * (⌊(residual + delta) / step_size⌋ : ℤ)
    rw [hfr]
    exact mul_nonneg (le_of_lt hpos) (Int.fract_nonneg _)
  · show (residual + delta) - step_size * (⌊(residual + delta) / step_size⌋ : ℤ) < step_size
    rw [hfr]
    calc step_size * Int.fract ((residual + delta) / step_size)
        < step_size * 1 := mul_lt_mul_of_pos_left (Int.fract_lt_one _) hpos
      _ = step_size := mul_one _
  · intro h0 hlt
    have hz : ⌊(residual + 0) / step_size⌋ = 0 := by
      rw [add_zero, Int.floor_eq_zero_iff, Set.mem_Ico]
      exact ⟨div_nonneg h0 (le_of_lt hpos), (div_lt_one hpos).mpr hlt⟩
    simp only [discrete_scroll, hz]
    norm_num
  · have h : ⌊((0:ℚ) + 30) / 50⌋ = 0 := by
      rw [Int.floor_eq_iff]
      norm_num
    simp only [discrete_scroll, h]
    norm_num
  · have h : ⌊((30:ℚ) + 30) / 50⌋ = 1 := by
      rw [Int.floor_eq_iff]
      norm_num
    simp only [discrete_scroll, h]
    norm_num
  · have h : ⌊((0:ℚ) + -10) / 50⌋ = -1 := by
      rw [Int.floor_eq_iff]
      norm_num
    simp only [discrete_scroll, h]
    norm_num
  · have h : ⌊((40:ℚ) + -45) / 50⌋ = -1 := by
      rw [Int.floor_eq_iff]
      norm_num
    simp only [discrete_scroll, h]
    norm_num

/-- Witness for C7: one concrete accumulator step with a positive step size. -/
theorem c7_discrete_scroll_step_witness :
    0 < (50:ℚ) ∧ discrete_scroll 50 30 30 = (Direction.Forwards, 10) :=
  ⟨by norm_num, (c7_discrete_scroll_step 50 0 30 (by norm_num)).2.2.2.1⟩

/-- Counterexample for C7 as stated: the claim (after the spec's §8 example)
says deltas `[-10, -45]` from residual 0 yield `Stationary` first, but the
formal contract of §4.5 makes the first call report `Backwards`
(`⌊-10 / 50⌋ = -1`) with residual 40. -/
theorem c7_discrete_scroll_step_counterexample :
    discrete_scroll 50 0 (-10) = (Direction.Backwards, 40)
    ∧ Direction.Backwards ≠ Direction.Stationary := by
  constructor
  · have h : ⌊((0:ℚ) + -10) / 50⌋ = -1 := by
      rw [Int.floor_eq_iff]
      norm_num
    simp only [discrete_scroll, h]
    norm_num
  · decide

/-! ### C8/C9: the cyclic theme search -/

theorem findFrom_stops (l : List String) (a : String) :
    ∀ (d : Nat), ∀ (i m : Nat) (hm : m < l.length), l[m] = a →
      i + d = m →
      (∀ j (hj : j < l.length), i ≤ j → j < m → l[j] ≠ a) →
      ∀ fuel, d < fuel → findFrom l a i fuel = some m := by
  intro d
  induction d with
  | zero =>
    intro i m hm ha hi hfirst fuel hfuel
    have him : i = m := by omega
    subst him
    cases fuel with
    | zero => omega
    | succ f =>
      simp only [findFrom, Nat.mod_eq_of_lt hm, List.getElem?_eq_getElem hm]
      simp [ha]
  | succ d ih =>
    intro i m hm ha hi hfirst fuel hfuel
    have him : i < m := by omega
    have hiN : i < l.length := by omega
    cases fuel with
    | zero => omega
    | succ f =>
      simp only [findFrom, Nat.mod_eq_of_lt hiN, List.getElem?_eq_getElem hiN]
      rw [if_neg (hfirst i hiN (Nat.le_refl i) him)]
      exact ih (i + 1) m hm ha (by omega)
        (fun j hj h1 h2 => hfirst j hj (by omega) h2) f (by omega)

theorem nodup_getElem_ne (l : List String) (hnd : l.Nodup) (i j : Nat)
    (hi : i < l.length) (hj : j < l.length) (hij : i ≠ j) :
    l[i] ≠ l[j] := fun hc => hij ((List.Nodup.getElem_inj_iff hnd).mp hc)

theorem getElem_idx_congr (l : List String) (i j : Nat) (hi : i < l.length)
    (hj : j < l.length) (hij : i = j) : l[i] = l[j] := by
  subst hij
  rfl

theorem next_cyclic_at (l : List String) (hnd : l.Nodup) (m : Nat)
    (hm : m < l.length) (hlt : (m + 1) % l.length < l.length) :
    next_cyclic l (l[m]) = some (l[(m + 1) % l.length]) := by
  have hfind : findFrom l (l[m]) 0 l.length = some m :=
    findFrom_stops l (l[m]) m 0 m hm rfl (by omega)
      (fun j hj h1 h2 => nodup_getElem_ne l hnd j m hj hm (by omega))
      l.length (by omega)
  simp only [next_cyclic, nextCyclicSearch, hfind, Option.some_bind,
    List.getElem?_eq_getElem hlt]

theorem prev_cyclic_at (l : List String) (hnd : l.Nodup) (m : Nat)
    (hm : m < l.length) (hlt : (m + l.length - 1) % l.length < l.length) :
    prev_cyclic l (l[m]) = some (l[(m + l.length - 1) % l.length]) := by
  have h0 : 0 < l.length := by omega
  have hrl : l.reverse.length = l.length := List.length_reverse l
  have hjN : l.length - 1 - m < l.reverse.length := by omega
  have hra : l.reverse[l.length - 1 - m] = l[m] := by
    rw [List.getElem_reverse]
    apply getElem_idx_congr l _ _ (by omega) (by omega)
    omega
  have hfind : findFrom l.reverse (l[m]) 0 l.length = some (l.length - 1 - m) := by
    apply findFrom_stops l.reverse (l[m]) (l.length - 1 - m) 0 (l.length - 1 - m)
      hjN hra (by omega) ?_ l.length (by omega)
    intro j hj h1 h2
    rw [← hra]
    apply nodup_getElem_ne l.reverse (List.nodup_reverse.mpr hnd) j
      (l.length - 1 - m) hj hjN (by omega)
  have hres : (l.length - 1 - m + 1) % l.reverse.length < l.reverse.length := by
    rw [hrl]
    exact Nat.mod_lt _ h0
  simp only [prev_cyclic, prevCyclicSearch, hfind, Option.some_bind,
    List.getElem?_eq_getElem hres, Option.some.injEq]
  rw [List.getElem_reverse]
  apply getElem_idx_congr l _ _ (by omega) hlt
  rw [hrl]
  by_cases hm0 : m = 0
  · subst hm0
    have e1 : l.length - 1 - 0 + 1 = l.length := by omega
    rw [e1, Nat.mod_self]
    have e2 := Nat.mod_eq_of_lt (show 0 + l.length - 1 < l.length by omega)
    omega
  · have e1 : l.length - 1 - m + 1 = l.length - m := by omega
    have e2 : (l.length - m) % l.length = l.length - m := Nat.mod_eq_of_lt (by omega)
    have e3 : m + l.length - 1 = (m - 1) + l.length := by omega
    rw [e1, e2, e3, Nat.add_mod_right, Nat.mod_eq_of_lt (by omega)]
    omega

theorem nextTot_at (l : List String) (hnd : l.Nodup) (m : Nat)
    (hm : m < l.length) (hlt : (m + 1) % l.length < l.length) :
    nextTot l (l[m]) = l[(m + 1) % l.length] := by
  rw [nextTot, next_cyclic_at l hnd m hm hlt, Option.getD_some]

theorem iterate_nextTot (l : List String) (hnd : l.Nodup) :
    ∀ (k m : Nat) (hm : m < l.length) (hmk : (m + k) % l.length < l.length),
      Nat.iterate (nextTot l) k (l[m]) = l[(m + k) % l.length] := by
  intro k
  induction k with
  | zero =>
    intro m hm hmk
    simp only [Function.iterate_zero, id_eq]
    exact getElem_idx_congr l m _ hm hmk (by rw [Nat.add_zero, Nat.mod_eq_of_lt hm])
  | succ k ih =>
    intro m hm hmk
    have h0 : 0 < l.length := by omega
    have hk : (m + k) % l.length < l.length := Nat.mod_lt _ h0
    have hk1 : ((m + k) % l.length + 1) % l.length < l.length := Nat.mod_lt _ h0
    rw [Function.iterate_succ_apply', ih m hm hk,
      nextTot_at l hnd ((m + k) % l.length) hk hk1]
    exact getElem_idx_congr l _ _ hk1 hmk (by rw [Nat.mod_add_mod, Nat.add_assoc])


/-- C8: for every theme present in the (duplicate-free) theme list, the cyclic
next search followed by the cyclic prev search returns the original theme, and
iterating the next operation as many times as the list has themes returns the
starting theme. -/
theorem c8_theme_cycle (l : List String) (a : String) (ha : a ∈ l)
    (hnd : l.Nodup) :
    (∃ b, next_cyclic l a = some b ∧ prev_cyclic l b = some a)
    ∧ Nat.iterate (nextTot l) l.length a = a := by
  obtain ⟨m, hm, rfl⟩ := List.getElem_of_mem ha
  have h0 : 0 < l.length := by omega
  have hlt1 : (m + 1) % l.length < l.length := Nat.mod_lt _ h0
  constructor
  · refine ⟨l[(m + 1) % l.length], next_cyclic_at l hnd m hm hlt1, ?_⟩
    have hlt2 : ((m + 1) % l.length + l.length - 1) % l.length < l.length :=
      Nat.mod_lt _ h0
    rw [prev_cyclic_at l hnd ((m + 1) % l.length) hlt1 hlt2]
    refine congrArg some (getElem_idx_congr l _ _ hlt2 hm ?_)
    by_cases hm1 : m + 1 < l.length
    · rw [Nat.mod_eq_of_lt hm1]
      have e : m + 1 + l.length - 1 = m + l.length := by omega
      rw [e, Nat.add_mod_right, Nat.mod_eq_of_lt hm]
    · have hmN : m + 1 = l.length := by omega
      rw [hmN, Nat.mod_self]
      have := Nat.mod_eq_of_lt (show 0 + l.length - 1 < l.length by omega)
      omega
  · have hmN2 : (m + l.length) % l.length < l.length := Nat.mod_lt _ h0
    rw [iterate_nextTot l hnd l.length m hm hmN2]
    exact getElem_idx_congr l _ _ hmN2 hm
      (by rw [Nat.add_mod_right, Nat.mod_eq_of_lt hm])

/-- Witness for C8 on a three-theme list. -/
theorem c8_theme_cycle_witness :
    ("Dark" ∈ (["Light", "Dark", "Dracula"] : List String)
      ∧ (["Light", "Dark", "Dracula"] : List String).Nodup)
    ∧ ((∃ b, next_cyclic ["Light", "Dark", "Dracula"] "Dark" = some b
          ∧ prev_cyclic ["Light", "Dark", "Dracula"] b = some "Dark")
       ∧ Nat.iterate (nextTot ["Light", "Dark", "Dracula"])
           (["Light", "Dark", "Dracula"] : List String).length "Dark" = "Dark") :=
  ⟨⟨by decide, by decide⟩,
   c8_theme_cycle ["Light", "Dark", "Dracula"] "Dark" (by decide) (by decide)⟩

theorem findFrom_not_mem (l : List String) (a : String) (h : a ∉ l) :
    ∀ (fuel i : Nat), findFrom l a i fuel = Option.none := by
  intro fuel
  induction fuel with
  | zero => intro i; rfl
  | succ f ih =>
    intro i
    cases hx : l[i % l.length]? with
    | none => simp [findFrom, hx]
    | some x =>
      have hmem : x ∈ l := by
        have := List.getElem?_eq_some_iff.mp hx
        obtain ⟨hb, he⟩ := this
        exact he ▸ List.getElem_mem hb
      have hne : ¬(x = a) := fun hc => h (hc ▸ hmem)
      simp [findFrom, hx, hne, ih]

/-- C9: when the current theme's name is absent from the theme list, the
cyclic searches of `next_cyclic`/`prev_cyclic` never yield a value at any
number of iterator steps — the Rust `skip_while` over the infinitely cycled
iterator loops forever instead of reaching the fail-fast `expect` panic the
code and the spec intend. Evaluated at the concrete iced theme list and a
name (`Custom`) outside it. -/
theorem c9_absent_theme_search_never_yields (fuel : Nat) :
    nextCyclicSearch themeNames "Custom" fuel = Option.none
    ∧ prevCyclicSearch themeNames "Custom" fuel = Option.none := by
  have h1 : "Custom" ∉ themeNames := by decide
  have h2 : "Custom" ∉ themeNames.reverse := by
    rw [List.mem_reverse]
    exact h1
  constructor
  · rw [nextCyclicSearch, findFrom_not_mem themeNames "Custom" h1]
    rfl
  · rw [prevCyclicSearch, findFrom_not_mem themeNames.reverse "Custom" h2]
    rfl

/-! ### C1: window lifecycle replay, registry size, and exit signalling -/

theorem sizeTrace_cons_form (s : State) (fs : FS) (evs : List Message) :
    ∃ t, sizeTrace s fs evs = s.windows.length :: t := by
  cases evs with
  | nil => exact ⟨[], rfl⟩
  | cons m rest => exact ⟨_, rfl⟩

theorem posThenZero_head_pos (x : Nat) (t : List Nat) (b : Bool) (hx : x ≠ 0) :
    posThenZero (x :: t) b = posThenZero t true := by
  have h1 : decide (x = 0) = false := decide_eq_false hx
  have h2 : decide (0 < x) = true := decide_eq_true (Nat.pos_of_ne_zero hx)
  simp only [posThenZero, h1, h2, Bool.and_false, Bool.false_or, Bool.or_true]

theorem posThenZero_step (len len2 : Nat) (t2 : List Nat)
    (h : len ≠ 0 → len2 ≠ 0) :
    posThenZero (len :: len2 :: t2) false = posThenZero (len2 :: t2) false := by
  by_cases hl : len = 0
  · subst hl
    rfl
  · rw [posThenZero_head_pos len _ false hl, posThenZero_head_pos len2 t2 true (h hl),
      posThenZero_head_pos len2 t2 false (h hl)]

theorem step_nonwindow (s : State) (fs : FS) (m : Message)
    (h1 : isOpenEvent m = false) (h2 : isCloseEvent m = false) :
    (stepS s fs m).windows.length = s.windows.length
    ∧ (stepOut s fs m).isExit = false := by
  cases m with
  | AddDirWindow id path => simp [isOpenEvent] at h1
  | AddEmptyWindow id => simp [isOpenEvent] at h1
  | AddSettingsWindow id => simp [isOpenEvent] at h1
  | RemoveWindow id => simp [isCloseEvent] at h2
  | SetTheme t => exact ⟨rfl, rfl⟩
  | ThemeScroll delta =>
    rcases hd : discrete_scroll scrollStepSize s.theme_scroll delta with ⟨dir, r⟩
    cases dir <;> simp [stepS, stepOut, update, hd, Out.isExit]
  | KeyEvent ev =>
    cases ev with
    | f2ReleasedNoMods =>
      by_cases he : ((s.windows.filter fun p =>
          match p.2 with
          | Window.Settings => true
          | _ => false).map Prod.fst).isEmpty
      · simp [stepS, stepOut, update, he, Out.isExit]
      · simp [stepS, stepOut, update, he, Out.isExit]
    | other => exact ⟨rfl, rfl⟩
  | AddItem ip item =>
    cases hv : getDirView s ip.view_path with
    | none => simp [stepS, stepOut, update, hv, Out.isExit]
    | some dv =>
      simp [stepS, stepOut, update, hv, Out.isExit, setDirView, setA_length]
  | SaveSettings => exact ⟨rfl, rfl⟩
  | ReloadSettigns =>
    cases fs with
    | none => exact ⟨rfl, rfl⟩
    | some cf =>
      cases cf with
      | malformed => exact ⟨rfl, rfl⟩
      | wellFormed d =>
        cases hd : decodeDoc d with
        | ok st => simp [stepS, stepOut, update, hd, Out.isExit]
        | error e => simp [stepS, stepOut, update, hd, Out.isExit]

theorem exit_char_cons_aux (s : State) (fs : FS) (m : Message) (rest : List Message)
    (hA : (stepOut s fs m).isExit = false)
    (hB : isCloseEvent m = false)
    (hC : s.windows.length ≠ 0 → (stepS s fs m).windows.length ≠ 0)
    (ih : exitEver (stepS s fs m) (stepFS s fs m) rest
      = (posThenZero (sizeTrace (stepS s fs m) (stepFS s fs m) rest) false
         || closeAtEmpty (stepS s fs m) (stepFS s fs m) rest)) :
    exitEver s fs (m :: rest)
      = (posThenZero (sizeTrace s fs (m :: rest)) false
         || closeAtEmpty s fs (m :: rest)) := by
  obtain ⟨t2, ht2⟩ := sizeTrace_cons_form (stepS s fs m) (stepFS s fs m) rest
  simp only [exitEver, sizeTrace, closeAtEmpty, hA, hB, Bool.false_or,
    Bool.false_and, ih, ht2]
  rw [posThenZero_step s.windows.length (stepS s fs m).windows.length t2 hC]

theorem exitEver_eq_posThenZero (evs : List Message) : ∀ (s : State) (fs : FS),
    exitEver s fs evs
      = (posThenZero (sizeTrace s fs evs) false || closeAtEmpty s fs evs) := by
  induction evs with
  | nil => intro s fs; rfl
  | cons m rest ih =>
    intro s fs
    cases m with
    | RemoveWindow id =>
      obtain ⟨t2, ht2⟩ := sizeTrace_cons_form (stepS s fs (Message.RemoveWindow id))
        (stepFS s fs (Message.RemoveWindow id)) rest
      have hsw : (stepS s fs (Message.RemoveWindow id)).windows
          = removeA id s.windows := rfl
      by_cases hsz : s.windows.length = 0
      · have hEmp : s.windows = [] := List.length_eq_zero.mp hsz
        have hout : (stepOut s fs (Message.RemoveWindow id)).isExit = true := by
          simp [stepOut, update, hEmp, removeA, Out.isExit]
        simp only [exitEver, closeAtEmpty, hout, hEmp, List.isEmpty_nil,
          isCloseEvent, Bool.and_true, Bool.true_or, Bool.or_true]
      · have hne : s.windows.isEmpty = false := by
          cases hw : s.windows with
          | nil => rw [hw] at hsz; simp at hsz
          | cons a b => rfl
        by_cases hsz2 : (removeA id s.windows).length = 0
        · have hEmp2 : removeA id s.windows = [] := List.length_eq_zero.mp hsz2
          have hout : (stepOut s fs (Message.RemoveWindow id)).isExit = true := by
            simp [stepOut, update, hEmp2, Out.isExit]
          have hlen2 : (stepS s fs (Message.RemoveWindow id)).windows.length = 0 := by
            rw [hsw, hsz2]
          simp only [exitEver, sizeTrace, closeAtEmpty, hout, Bool.true_or, ht2, hlen2]
          rw [posThenZero_head_pos _ _ false hsz]
          rfl
        · have hne2 : (removeA id s.windows).isEmpty = false := by
            cases hw : removeA id s.windows with
            | nil => rw [hw] at hsz2; simp at hsz2
            | cons a b => rfl
          have hout : (stepOut s fs (Message.RemoveWindow id)).isExit = false := by
            simp [stepOut, update, Out.isExit, hne2]
          obtain ⟨t2b, ht2b⟩ := sizeTrace_cons_form
            (stepS s fs (Message.RemoveWindow id))
            (stepFS s fs (Message.RemoveWindow id)) rest
          simp only [exitEver, sizeTrace, closeAtEmpty, hout, Bool.false_or,
            isCloseEvent, Bool.true_and, hne, ih, ht2b]
          rw [posThenZero_step s.windows.length
            (stepS s fs (Message.RemoveWindow id)).windows.length t2b
            (fun _ => by rw [hsw]; exact hsz2)]
    | AddDirWindow id path =>
      apply exit_char_cons_aux s fs (Message.AddDirWindow id path) rest rfl rfl ?_ (ih _ _)
      intro _
      have h1 := insertA_length_pos id (Window.Main paneGridNew) s.windows
      have h2 : (stepS s fs (Message.AddDirWindow id path)).windows.length
          = (insertA id (Window.Main paneGridNew) s.windows).length := rfl
      omega
    | AddEmptyWindow id =>
      apply exit_char_cons_aux s fs (Message.AddEmptyWindow id) rest rfl rfl ?_ (ih _ _)
      intro _
      have h1 := insertA_length_pos id (Window.Main paneGridNew) s.windows
      have h2 : (stepS s fs (Message.AddEmptyWindow id)).windows.length
          = (insertA id (Window.Main paneGridNew) s.windows).length := rfl
      omega
    | AddSettingsWindow id =>
      apply exit_char_cons_aux s fs (Message.AddSettingsWindow id) rest rfl rfl ?_ (ih _ _)
      intro _
      have h1 := insertA_length_pos id Window.Settings s.windows
      have h2 : (stepS s fs (Message.AddSettingsWindow id)).windows.length
          = (insertA id Window.Settings s.windows).length := rfl
      omega
    | SetTheme t =>
      have h := step_nonwindow s fs (Message.SetTheme t) rfl rfl
      exact exit_char_cons_aux s fs _ rest h.2 rfl (fun hx => by omega) (ih _ _)
    | ThemeScroll delta =>
      have h := step_nonwindow s fs (Message.ThemeScroll delta) rfl rfl
      exact exit_char_cons_aux s fs _ rest h.2 rfl (fun hx => by omega) (ih _ _)
    | KeyEvent ev =>
      have h := step_nonwindow s fs (Message.KeyEvent ev) rfl rfl
      exact exit_char_cons_aux s fs _ rest h.2 rfl (fun hx => by omega) (ih _ _)
    | AddItem ip item =>
      have h := step_nonwindow s fs (Message.AddItem ip item) rfl rfl
      exact exit_char_cons_aux s fs _ rest h.2 rfl (fun hx => by omega) (ih _ _)
    | SaveSettings =>
      have h := step_nonwindow s fs Message.SaveSettings rfl rfl
      exact exit_char_cons_aux s fs _ rest h.2 rfl (fun hx => by omega) (ih _ _)
    | ReloadSettigns =>
      have h := step_nonwindow s fs Message.ReloadSettigns rfl rfl
      exact exit_char_cons_aux s fs _ rest h.2 rfl (fun hx => by omega) (ih _ _)

theorem opensCount_cons_open (m : Message) (rest : List Message)
    (h : isOpenEvent m = true) : opensCount (m :: rest) = opensCount rest + 1 := by
  simp [opensCount, List.countP_cons, h]

theorem matchingCloses_cons_nonclose (s : State) (fs : FS) (m : Message)
    (rest : List Message) (h : isCloseEvent m = false) :
    matchingCloses s fs (m :: rest)
      = matchingCloses (stepS s fs m) (stepFS s fs m) rest := by
  cases m <;> simp_all [matchingCloses, isCloseEvent]

theorem matchingCloses_cons_close (s : State) (fs : FS) (id : Nat)
    (rest : List Message) :
    matchingCloses s fs (Message.RemoveWindow id :: rest)
      = (if hasKey id s.windows then 1 else 0)
        + matchingCloses (stepS s fs (Message.RemoveWindow id))
            (stepFS s fs (Message.RemoveWindow id)) rest := rfl

theorem count_invariant (evs : List Message) : ∀ (s : State) (fs : FS),
    windowEventsOnly evs = true → freshOpens s fs evs = true →
    keysNodup s.windows →
    (finalS s fs evs).windows.length + matchingCloses s fs evs
      = s.windows.length + opensCount evs := by
  induction evs with
  | nil =>
    intro s fs _ _ _
    simp [finalS, matchingCloses, opensCount]
  | cons m rest ih =>
    intro s fs hw hf hnd
    have hw2 := hw
    simp only [windowEventsOnly, List.all_cons, Bool.and_eq_true] at hw2
    have hwr : windowEventsOnly rest = true := hw2.2
    have hfin : finalS s fs (m :: rest)
        = finalS (stepS s fs m) (stepFS s fs m) rest := rfl
    cases m with
    | AddDirWindow id path =>
      simp only [freshOpens, Bool.and_eq_true, Bool.not_eq_true'] at hf
      have hsw : (stepS s fs (Message.AddDirWindow id path)).windows
          = insertA id (Window.Main paneGridNew) s.windows := rfl
      have hlen : (stepS s fs (Message.AddDirWindow id path)).windows.length
          = s.windows.length + 1 := by
        rw [hsw]
        exact insertA_length_of_fresh _ _ _ hf.1
      have hnd2 : keysNodup (stepS s fs (Message.AddDirWindow id path)).windows := by
        rw [hsw]
        exact keysNodup_insertA _ _ _ hnd
      have hrec := ih _ _ hwr hf.2 hnd2
      rw [hfin, matchingCloses_cons_nonclose s fs (Message.AddDirWindow id path) rest rfl,
        opensCount_cons_open (Message.AddDirWindow id path) rest rfl]
      omega
    | AddEmptyWindow id =>
      simp only [freshOpens, Bool.and_eq_true, Bool.not_eq_true'] at hf
      have hsw : (stepS s fs (Message.AddEmptyWindow id)).windows
          = insertA id (Window.Main paneGridNew) s.windows := rfl
      have hlen : (stepS s fs (Message.AddEmptyWindow id)).windows.length
          = s.windows.length + 1 := by
        rw [hsw]
        exact insertA_length_of_fresh _ _ _ hf.1
      have hnd2 : keysNodup (stepS s fs (Message.AddEmptyWindow id)).windows := by
        rw [hsw]
        exact keysNodup_insertA _ _ _ hnd
      have hrec := ih _ _ hwr hf.2 hnd2
      rw [hfin, matchingCloses_cons_nonclose s fs (Message.AddEmptyWindow id) rest rfl,
        opensCount_cons_open (Message.AddEmptyWindow id) rest rfl]
      omega
    | AddSettingsWindow id =>
      simp only [freshOpens, Bool.and_eq_true, Bool.not_eq_true'] at hf
      have hsw : (stepS s fs (Message.AddSettingsWindow id)).windows
          = insertA id Window.Settings s.windows := rfl
      have hlen : (stepS s fs (Message.AddSettingsWindow id)).windows.length
          = s.windows.length + 1 := by
        rw [hsw]
        exact insertA_length_of_fresh _ _ _ hf.1
      have hnd2 : keysNodup (stepS s fs (Message.AddSettingsWindow id)).windows := by
        rw [hsw]
        exact keysNodup_insertA _ _ _ hnd
      have hrec := ih _ _ hwr hf.2 hnd2
      rw [hfin, matchingCloses_cons_nonclose s fs (Message.AddSettingsWindow id) rest rfl,
        opensCount_cons_open (Message.AddSettingsWindow id) rest rfl]
      omega
    | RemoveWindow id =>
      simp only [freshOpens, Bool.true_and] at hf
      have hsw : (stepS s fs (Message.RemoveWindow id)).windows
          = removeA id s.windows := rfl
      have hnd2 : keysNodup (stepS s fs (Message.RemoveWindow id)).windows := by
        rw [hsw]
        exact keysNodup_removeA _ _ hnd
      have hrec := ih _ _ hwr hf hnd2
      have hoc : opensCount (Message.RemoveWindow id :: rest) = opensCount rest := by
        simp [opensCount, List.countP_cons, isOpenEvent]
      rw [hfin, matchingCloses_cons_close, hoc]
      by_cases hk : hasKey id s.windows = true
      · have hlen : (stepS s fs (Message.RemoveWindow id)).windows.length + 1
            = s.windows.length := by
          rw [hsw]
          exact removeA_length_of_mem id s.windows hk hnd
        rw [hk]
        simp only [if_true]
        omega
      · have hk2 : hasKey id s.windows = false := by
          cases h : hasKey id s.windows
          · rfl
          · exact absurd h hk
        have hlen : (stepS s fs (Message.RemoveWindow id)).windows.length
            = s.windows.length := by
          rw [hsw, removeA_of_not_mem _ _ hk2]
        rw [hk2]
        simp only [Bool.false_eq_true, if_false]
        omega
    | SetTheme t => simp [isOpenEvent, isCloseEvent] at hw2
    | ThemeScroll delta => simp [isOpenEvent, isCloseEvent] at hw2
    | KeyEvent ev => simp [isOpenEvent, isCloseEvent] at hw2
    | AddItem ip item => simp [isOpenEvent, isCloseEvent] at hw2
    | SaveSettings => simp [isOpenEvent, isCloseEvent] at hw2
    | ReloadSettigns => simp [isOpenEvent, isCloseEvent] at hw2


/-- C1 (amended): replaying window-open and window-close events from the empty
registry, where each open uses an id not currently present (the spec's
`WindowOpened` precondition), leaves the registry with exactly
`opens - matching closes` windows, where a close matches when its id is
present at the time it is processed; and the application signals termination
(`iced::exit`) exactly when the window count reaches zero after having been
positive at least once, or a `RemoveWindow` is processed while the registry is
already empty (the code also exits in that case). -/
theorem c1_window_registry_replay (evs : List Message) (s : State) (fs : FS)
    (hw : windowEventsOnly evs = true) (hf : freshOpens s fs evs = true)
    (h0 : s.windows = []) :
    (finalS s fs evs).windows.length
      = opensCount evs - matchingCloses s fs evs
    ∧ matchingCloses s fs evs ≤ opensCount evs
    ∧ (exitEver s fs evs = true ↔
        (posThenZero (sizeTrace s fs evs) false = true
         ∨ closeAtEmpty s fs evs = true)) := by
  have hnd : keysNodup s.windows := by
    rw [h0]
    simp [keysNodup]
  have hinv := count_invariant evs s fs hw hf hnd
  rw [h0] at hinv
  simp only [List.length_nil] at hinv
  have hx := exitEver_eq_posThenZero evs s fs
  refine ⟨by omega, by omega, ?_⟩
  rw [hx]
  exact (Bool.or_eq_true _ _).to_iff

/-- Witness for C1 at the two-event replay open-then-close: one open, one
matching close, final registry empty, and exit signalled (the count became
positive and then reached zero). -/
theorem c1_window_registry_replay_witness :
    (windowEventsOnly [Message.AddEmptyWindow 1, Message.RemoveWindow 1] = true
     ∧ freshOpens { windows := [], settings := defaultSettings, theme_scroll := 0 } Option.none [Message.AddEmptyWindow 1, Message.RemoveWindow 1] = true
     ∧ ({ windows := [], settings := defaultSettings, theme_scroll := 0 } : State).windows = [])
    ∧ ((finalS { windows := [], settings := defaultSettings, theme_scroll := 0 } Option.none [Message.AddEmptyWindow 1, Message.RemoveWindow 1]).windows.length
        = opensCount [Message.AddEmptyWindow 1, Message.RemoveWindow 1]
          - matchingCloses { windows := [], settings := defaultSettings, theme_scroll := 0 } Option.none [Message.AddEmptyWindow 1, Message.RemoveWindow 1]
       ∧ matchingCloses { windows := [], settings := defaultSettings, theme_scroll := 0 } Option.none [Message.AddEmptyWindow 1, Message.RemoveWindow 1]
          ≤ opensCount [Message.AddEmptyWindow 1, Message.RemoveWindow 1]
       ∧ (exitEver { windows := [], settings := defaultSettings, theme_scroll := 0 } Option.none [Message.AddEmptyWindow 1, Message.RemoveWindow 1] = true ↔
            (posThenZero (sizeTrace { windows := [], settings := defaultSettings, theme_scroll := 0 } Option.none [Message.AddEmptyWindow 1, Message.RemoveWindow 1]) false = true
             ∨ closeAtEmpty { windows := [], settings := defaultSettings, theme_scroll := 0 } Option.none [Message.AddEmptyWindow 1, Message.RemoveWindow 1] = true))) :=
  ⟨⟨by decide, by decide, rfl⟩,
   c1_window_registry_replay [Message.AddEmptyWindow 1, Message.RemoveWindow 1]
     { windows := [], settings := defaultSettings, theme_scroll := 0 }
     Option.none (by decide) (by decide) rfl⟩

/-- Counterexample for C1 as stated. First, with a duplicated open id the
registry holds one window while `opens - matching closes = 2`, so the size
equation of the claim fails on an arbitrary open/close sequence. Second, a
`RemoveWindow` replayed from the empty registry makes the code signal
`iced::exit` even though the window count never was positive, so "terminates
exactly when the count reaches zero after having been positive at least once"
fails in the only-if direction. -/
theorem c1_window_registry_replay_counterexample :
    (windowEventsOnly [Message.AddEmptyWindow 1, Message.AddEmptyWindow 1] = true
     ∧ (finalS { windows := [], settings := defaultSettings, theme_scroll := 0 } Option.none [Message.AddEmptyWindow 1, Message.AddEmptyWindow 1]).windows.length = 1
     ∧ opensCount [Message.AddEmptyWindow 1, Message.AddEmptyWindow 1]
        - matchingCloses { windows := [], settings := defaultSettings, theme_scroll := 0 } Option.none [Message.AddEmptyWindow 1, Message.AddEmptyWindow 1] = 2)
    ∧ (windowEventsOnly [Message.RemoveWindow 0] = true
       ∧ exitEver { windows := [], settings := defaultSettings, theme_scroll := 0 } Option.none [Message.RemoveWindow 0] = true
       ∧ posThenZero (sizeTrace { windows := [], settings := defaultSettings, theme_scroll := 0 } Option.none [Message.RemoveWindow 0]) false = false) := by
  refine ⟨⟨by decide, by decide, by decide⟩, by decide, by decide, by decide⟩

end ArkivKatalog
